import Mathlib

set_option maxHeartbeats 1000000

/-!
Shallow embedding of the twitch_obs_queue repository core
(src/queue.rs, src/db.rs, src/twitch.rs, src/web.rs, src/util.rs).

The SQLite tables are modelled as lists of rows in table (insertion)
order.  `SELECT ... WHERE k = ?` with `fetch_optional` becomes
`List.find?`, `SELECT ... ORDER BY position ASC` becomes an insertion
sort on the position column, `UPDATE ... WHERE c` becomes `List.map`
with a conditional row update, `DELETE ... WHERE c` becomes
`List.filter` with the negated condition, and `INSERT` appends a row.
Machine i64 columns become `Int`; no arithmetic in the embedded code can
overflow 64 bits for queue-sized data, so no wrap-around is modelled.
Network calls (token refresh, Helix profile fetch, subscription
creation) are external collaborators; their results enter the embedded
functions as explicit `Option`/`Bool` parameters.
-/

namespace TwitchObsQueue

/-- A row of the `queue_items` table (struct `QueueItemRow` in src/queue.rs). -/
structure QueueItem where
  id : String
  user_id : String
  user_login : String
  display_name : String
  profile_image_url : String
  enqueued_at : Int
  position : Int
  deriving DecidableEq

/-- A row of the `participations` table (written only by `delete_item` in src/queue.rs). -/
structure Participation where
  user_id : String
  completed_at : Int
  deriving DecidableEq

/-- A row of the `user_cache` table (struct `CachedUserProfile` in src/db.rs). -/
structure CachedUserProfile where
  user_id : String
  user_login : String
  display_name : String
  profile_image_url : String
  updated_at : Int
  deriving DecidableEq

/-- The stored OAuth token (struct `OAuthToken` in src/db.rs, row id = 1 of `oauth_tokens`). -/
structure OAuthToken where
  access_token : String
  refresh_token : String
  expires_at : Int
  deriving DecidableEq

/-- The SQLite database state: the tables touched by the embedded code.
`processed_messages` rows are (message_id, received_at). -/
structure Db where
  queue_items : List QueueItem
  participations : List Participation
  processed_messages : List (String × Int)
  user_cache : List CachedUserProfile
  oauth_token : Option OAuthToken
  deriving DecidableEq

/-- The freshly created database (after migrations, before any writes). -/
def emptyDb : Db := ⟨[], [], [], [], none⟩

/-- Argument of `enqueue_user` (struct `NewQueueUser` in src/queue.rs). -/
structure NewQueueUser where
  user_id : String
  user_login : String
  display_name : String
  profile_image_url : String
  deriving DecidableEq

/-- Enum `EnqueueOutcome` in src/queue.rs. -/
inductive EnqueueOutcome where
  | added (id : String) (position : Int)
  | alreadyQueued
  deriving DecidableEq

/-- Enum `DeleteMode` in src/queue.rs. -/
inductive DeleteMode where
  | completed
  | canceled
  deriving DecidableEq

/-- The error message of `anyhow::bail!("queue item not found")` in src/queue.rs. -/
def queueItemNotFound : String := "queue item not found"

/-- `fn is_blank` in src/util.rs: `s.trim().is_empty()`, i.e. every character
of the string is whitespace. -/
def is_blank (s : String) : Bool := s.data.all (fun c => c.isWhitespace)

/-- The ordering used by `ORDER BY position ASC` on `queue_items`. -/
def posLe (a b : QueueItem) : Prop := a.position ≤ b.position

instance : DecidableRel posLe := fun a b => Int.decLe a.position b.position

instance : IsTotal QueueItem posLe := ⟨fun a b => Int.le_total a.position b.position⟩

instance : IsTrans QueueItem posLe := ⟨fun _ _ _ hab hbc => Int.le_trans hab hbc⟩

/-- `SELECT ... FROM queue_items ORDER BY position ASC`. -/
def sortByPos (l : List QueueItem) : List QueueItem := List.insertionSort posLe l

/-- `fn count_participations` / `count_participations_tx` in src/queue.rs:
`SELECT COUNT(*) FROM participations WHERE user_id = ?1 AND completed_at >= ?2`. -/
def count_participations (parts : List Participation) (user_id : String) (window_start : Int) : Nat :=
  (parts.filter (fun p => p.user_id == user_id && decide (window_start ≤ p.completed_at))).length

/-- The insertion-point scan of `enqueue_user` (src/queue.rs lines 148-156):
starting from `insert_pos = current.len()`, take the first index whose row has
strictly more recent participations than `my_count`. The recursion returns
that first index, or the length of the list when no such row exists. -/
def scanInsertPos (parts : List Participation) (window_start : Int) (my_count : Nat) :
    List QueueItem → Nat
  | [] => 0
  | it :: rest =>
    if my_count < count_participations parts it.user_id window_start then 0
    else scanInsertPos parts window_start my_count rest + 1

/-- The `insert_pos` computed by `enqueue_user` for a participant that is not
yet queued: scan the queue in position order. -/
def enqueueInsertPos (db : Db) (window_start : Int) (user_id : String) : Nat :=
  scanInsertPos db.participations window_start
    (count_participations db.participations user_id window_start)
    (sortByPos db.queue_items)

/-- `UPDATE queue_items SET position = position + 1 WHERE position >= ?1`
(src/queue.rs lines 158-166). -/
def shiftFrom (insert_pos : Int) (items : List QueueItem) : List QueueItem :=
  items.map (fun it =>
    if insert_pos ≤ it.position then { it with position := it.position + 1 } else it)

/-- `fn enqueue_user` in src/queue.rs.  `now` is `util::now_epoch()` and `newId`
is the generated `Uuid::new_v4()` string, both passed in explicitly. -/
def enqueue_user (db : Db) (participation_window_secs : Int) (user : NewQueueUser)
    (now : Int) (newId : String) : Db × EnqueueOutcome :=
  let window_start := now - participation_window_secs
  if (db.queue_items.find? (fun it => it.user_id == user.user_id)).isSome then
    (db, .alreadyQueued)
  else
    let insert_pos : Int := (enqueueInsertPos db window_start user.user_id : Nat)
    let item : QueueItem :=
      ⟨newId, user.user_id, user.user_login, user.display_name, user.profile_image_url,
        now, insert_pos⟩
    ({ db with queue_items := shiftFrom insert_pos db.queue_items ++ [item] },
      .added newId insert_pos)

/-- `UPDATE queue_items SET position = position - 1 WHERE position > ?1`
(src/queue.rs lines 220-228). -/
def closeGapFrom (deleted_pos : Int) (items : List QueueItem) : List QueueItem :=
  items.map (fun it =>
    if deleted_pos < it.position then { it with position := it.position - 1 } else it)

/-- `fn delete_item` in src/queue.rs.  `now` is `util::now_epoch()`. -/
def delete_item (db : Db) (id : String) (mode : DeleteMode) (now : Int) : Except String Db :=
  match db.queue_items.find? (fun it => it.id == id) with
  | none => .error queueItemNotFound
  | some item =>
    .ok { db with
      queue_items :=
        closeGapFrom item.position (db.queue_items.filter (fun it => !(it.id == id))),
      participations :=
        match mode with
        | .completed => db.participations ++ [⟨item.user_id, now⟩]
        | .canceled => db.participations }

/-- `fn move_by` in src/queue.rs. -/
def move_by (db : Db) (id : String) (delta : Int) : Except String Db :=
  match db.queue_items.find? (fun it => it.id == id) with
  | none => .error queueItemNotFound
  | some item =>
    let new_pos := item.position + delta
    if new_pos < 0 then .ok db
    else
      match db.queue_items.find? (fun it => it.position == new_pos) with
      | none => .ok db
      | some swap =>
        let q1 := db.queue_items.map (fun it =>
          if it.id == item.id then { it with position := new_pos } else it)
        let q2 := q1.map (fun it =>
          if it.id == swap.id then { it with position := item.position } else it)
        .ok { db with queue_items := q2 }

/-- `fn move_up` in src/queue.rs. -/
def move_up (db : Db) (id : String) : Except String Db := move_by db id (-1)

/-- `fn move_down` in src/queue.rs. -/
def move_down (db : Db) (id : String) : Except String Db := move_by db id 1

/-- `fn is_user_queued` in src/queue.rs. -/
def is_user_queued (db : Db) (user_id : String) : Bool :=
  (db.queue_items.find? (fun it => it.user_id == user_id)).isSome

/-- `fn is_processed_message` in src/db.rs. -/
def is_processed_message (db : Db) (message_id : String) : Bool :=
  (db.processed_messages.find? (fun r => r.1 == message_id)).isSome

/-- `fn mark_processed_message` in src/db.rs (`INSERT OR IGNORE`). -/
def mark_processed_message (db : Db) (message_id : String) (received_at : Int) : Db :=
  if (db.processed_messages.find? (fun r => r.1 == message_id)).isSome then db
  else { db with processed_messages := db.processed_messages ++ [(message_id, received_at)] }

/-- `fn has_validish_token` in src/db.rs: a token exists and
`t.expires_at > util::now_epoch() + 30`. -/
def has_validish_token (db : Db) (now : Int) : Bool :=
  match db.oauth_token with
  | none => false
  | some t => decide (now + 30 < t.expires_at)

/-- `fn upsert_oauth_token` in src/db.rs (row id = 1). -/
def upsert_oauth_token (db : Db) (t : OAuthToken) : Db := { db with oauth_token := some t }

/-- `fn get_cached_user_profile` in src/db.rs. -/
def get_cached_user_profile (db : Db) (user_id : String) : Option CachedUserProfile :=
  db.user_cache.find? (fun c => c.user_id == user_id)

/-- `fn upsert_cached_user_profile` in src/db.rs (`ON CONFLICT(user_id) DO UPDATE`). -/
def upsert_cached_user_profile (db : Db) (p : CachedUserProfile) : Db :=
  if (db.user_cache.find? (fun c => c.user_id == p.user_id)).isSome then
    { db with user_cache := db.user_cache.map (fun c => if c.user_id == p.user_id then p else c) }
  else { db with user_cache := db.user_cache ++ [p] }

/-- Result rows of Helix `GET /users` (struct `HelixUser` in src/twitch.rs). -/
structure HelixUser where
  id : String
  login : String
  display_name : String
  profile_image_url : String
  deriving DecidableEq

/-- `fn get_profile_image_url_cached` in src/twitch.rs.  The result of the
Helix call `helix_get_user_by_id` is the `helix` parameter (`none` = network
failure).  `i64::saturating_sub` is modelled as plain `Int` subtraction (no
64-bit overflow for realistic epochs).  The best-effort cache upsert is
modelled as succeeding.  Returns `none` exactly when the function returns
`Err`. -/
def get_profile_image_url_cached (db : Db) (now ttl : Int) (user_id : String)
    (helix : Option HelixUser) : Option (Db × String) :=
  let cached := db.user_cache.find? (fun c => c.user_id == user_id)
  let freshHit : Option String :=
    if 0 < ttl then
      match cached with
      | some c => if now - c.updated_at ≤ ttl then some c.profile_image_url else none
      | none => none
    else none
  match freshHit with
  | some url => some (db, url)
  | none =>
    match helix with
    | some u =>
      let profile : CachedUserProfile := ⟨u.id, u.login, u.display_name, u.profile_image_url, now⟩
      some (upsert_cached_user_profile db profile, u.profile_image_url)
    | none =>
      match cached with
      | some c => some (db, c.profile_image_url)
      | none => none

/-- Constant `SUB_TYPE_REDEMPTION_ADD` in src/twitch.rs. -/
def SUB_TYPE_REDEMPTION_ADD : String := "channel.channel_points_custom_reward_redemption.add"

/-- Constant `EVENTSUB_WS_URL` in src/twitch.rs. -/
def EVENTSUB_WS_URL : String := "wss://eventsub.wss.twitch.tv/ws"

/-- The parts of `Config` read by the embedded code (src/config.rs). -/
structure AppConfig where
  target_reward_id : String
  user_cache_ttl_secs : Int
  participation_window_secs : Int
  deriving DecidableEq

/-- A parsed `channel.channel_points_custom_reward_redemption.add` event
(struct `RedemptionEvent` + `RewardInfo` in src/twitch.rs). -/
structure RedemptionEvent where
  user_id : String
  user_login : String
  user_name : String
  reward_id : String
  reward_title : String
  deriving DecidableEq

/-- The handler of a `"notification"` websocket frame in `run_eventsub_loop`
(src/twitch.rs lines 585-665).  `subscription_type` and `message_id` come from
the frame metadata; `payload` is the parsed `NotificationPayload` (`none` =
JSON parse failure); `helix` is the result of the Helix user fetch inside
`get_profile_image_url_cached`; `newId` is the UUID generated by
`enqueue_user`.  Returns the database after the frame and whether an entry
was enqueued (`EnqueueOutcome::Added`). -/
def handle_notification (cfg : AppConfig) (db : Db) (now : Int) (message_id : String)
    (subscription_type : Option String) (payload : Option RedemptionEvent)
    (helix : Option HelixUser) (newId : String) : Db × Bool :=
  if !(subscription_type == some SUB_TYPE_REDEMPTION_ADD) then (db, false)
  else if is_processed_message db message_id then (db, false)
  else
    let db1 := mark_processed_message db message_id now
    match payload with
    | none => (db1, false)
    | some ev =>
      if !(is_blank cfg.target_reward_id) && !(ev.reward_id == cfg.target_reward_id) then
        (db1, false)
      else if is_blank cfg.target_reward_id then (db1, false)
      else if is_user_queued db1 ev.user_id then (db1, false)
      else
        match get_profile_image_url_cached db1 now cfg.user_cache_ttl_secs ev.user_id helix with
        | none => (db1, false)
        | some (db2, url) =>
          let fresh : NewQueueUser := ⟨ev.user_id, ev.user_login, ev.user_name, url⟩
          match enqueue_user db2 cfg.participation_window_secs fresh now newId with
          | (db3, .added _ _) => (db3, true)
          | (db3, .alreadyQueued) => (db3, false)

/-- The in-memory session state of `run_eventsub_loop` (src/twitch.rs):
the current websocket endpoint `ws_url`, the `need_subscribe` flag, and the
per-connection `received_reconnect` flag, together with the database. -/
structure LoopState where
  db : Db
  ws_url : String
  need_subscribe : Bool
  received_reconnect : Bool
  deriving DecidableEq

/-- Observable side effects of one frame of the read loop. -/
inductive Action where
  | createSub (session_id : String)
  | spawnCleanup
  | enqueued (user_id : String)
  deriving DecidableEq

/-- A websocket frame of the read loop, after JSON parsing of the envelope.
`reconnect` carries `payload.session.reconnect_url`; `closeFrame` covers both
`Message::Close` and a websocket read error (both `break` the read loop). -/
inductive WsEvent where
  | welcome (session_id : String)
  | keepalive
  | notification (message_id : String) (subscription_type : Option String)
      (payload : Option RedemptionEvent)
  | reconnect (reconnect_url : Option String)
  | revocation
  | unknownFrame
  | ping
  | closeFrame
  deriving DecidableEq

/-- Per-frame environment: results of the external calls made while handling
the frame.  `subOk` is the result of `create_redemption_subscription`; `helix`
and `newId` feed `handle_notification`; `now` is `util::now_epoch()`. -/
structure StepEnv where
  subOk : Bool
  helix : Option HelixUser
  newId : String
  now : Int
  deriving DecidableEq

/-- One iteration of the read loop of `run_eventsub_loop`
(src/twitch.rs lines 520-699).  Returns the new state, the emitted actions,
and whether the read loop breaks after this frame. -/
def stepEvent (cfg : AppConfig) (env : StepEnv) (s : LoopState) :
    WsEvent → LoopState × List Action × Bool
  | .welcome session_id =>
    if s.need_subscribe then
      if env.subOk then
        ({ s with need_subscribe := false }, [.createSub session_id, .spawnCleanup], false)
      else (s, [.createSub session_id], false)
    else (s, [], false)
  | .keepalive => (s, [], false)
  | .notification message_id subscription_type payload =>
    let r := handle_notification cfg s.db env.now message_id subscription_type payload
      env.helix env.newId
    ({ s with db := r.1 }, if r.2 then [.enqueued message_id] else [], false)
  | .reconnect reconnect_url =>
    match reconnect_url with
    | none => (s, [], true)
    | some url => ({ s with ws_url := url, received_reconnect := true }, [], true)
  | .revocation => ({ s with need_subscribe := true }, [], false)
  | .unknownFrame => (s, [], false)
  | .ping => (s, [], false)
  | .closeFrame => (s, [], true)

/-- The reset after the read loop exits (src/twitch.rs lines 704-707): when no
`session_reconnect` was received, force a resubscribe and fall back to the
canonical endpoint. -/
def postLoop (s : LoopState) : LoopState :=
  if !s.received_reconnect then
    { s with need_subscribe := true, ws_url := EVENTSUB_WS_URL }
  else s

/-- The read loop of one connection: process frames until one breaks the loop
(or the stream ends, which the read loop treats like a close), then apply the
post-loop reset. -/
def runConnGo (cfg : AppConfig) : LoopState → List (WsEvent × StepEnv) → LoopState × List Action
  | s, [] => (postLoop s, [])
  | s, (e, env) :: rest =>
    match stepEvent cfg env s e with
    | (s1, acts, true) => (postLoop s1, acts)
    | (s1, acts, false) =>
      let r := runConnGo cfg s1 rest
      (r.1, acts ++ r.2)

/-- One whole connection of `run_eventsub_loop`: `received_reconnect` is reset
to false at the start of every connection (src/twitch.rs line 517). -/
def runConn (cfg : AppConfig) (s : LoopState) (frames : List (WsEvent × StepEnv)) :
    LoopState × List Action :=
  runConnGo cfg { s with received_reconnect := false } frames

/-- The token-expiry guard at the top of `run_eventsub_loop`
(src/twitch.rs lines 460-480).  `refreshResult` is the result of
`refresh_access_token` (`none` = failure).  Returns the database and the token
the connection attempt proceeds with (`none` = sleep and retry the outer
loop). -/
def eventsubTokenStep (db : Db) (now : Int) (refreshResult : Option OAuthToken) :
    Db × Option OAuthToken :=
  match db.oauth_token with
  | none => (db, none)
  | some token =>
    if token.expires_at ≤ now + 60 then
      match refreshResult with
      | some new_token => (upsert_oauth_token db new_token, some new_token)
      | none => (db, none)
    else (db, some token)

/-- The error type of the presentation layer (enum `ApiError` in src/web.rs). -/
inductive ApiError where
  | badRequest (msg : String)
  | unauthorized (msg : String)
  | notFound (msg : String)
  | internal (msg : String)
  deriving DecidableEq

/-- `impl IntoResponse for ApiError` in src/web.rs: status code and body. -/
def apiErrorResponse : ApiError → Nat × String
  | .badRequest msg => (400, msg)
  | .unauthorized msg => (401, msg)
  | .notFound msg => (404, msg)
  | .internal _ => (500, "internal error")

/-- The substring needle of the error-classification check in
`api_queue_delete` (src/web.rs): `e.to_string().contains("not found")`. -/
def notFoundNeedle : String := "not found"

/-- Whether the first list of characters occurs at the head of the second. -/
def needleAt : List Char → List Char → Bool
  | [], _ => true
  | _ :: _, [] => false
  | a :: as, b :: bs => a == b && needleAt as bs

/-- Whether the first list of characters occurs anywhere in the second. -/
def containsSub (needle : List Char) : List Char → Bool
  | [] => needleAt needle []
  | c :: rest => needleAt needle (c :: rest) || containsSub needle rest

/-- `e.to_string().contains("not found")` from src/web.rs: substring test. -/
def containsNotFound (e : String) : Bool := containsSub notFoundNeedle.data e.data

/-- `fn api_queue_delete` in src/web.rs: a failing `delete_item` whose message
contains "not found" becomes `ApiError::NotFound`, anything else
`ApiError::Internal`.  Success is 204 No Content with the mutated database. -/
def api_queue_delete (db : Db) (id : String) (mode : DeleteMode) (now : Int) :
    Except ApiError Db :=
  match delete_item db id mode now with
  | .ok db1 => .ok db1
  | .error e =>
    if containsNotFound e then .error (.notFound queueItemNotFound)
    else .error (.internal e)

/-- `fn api_queue_move_up` in src/web.rs: the `?` operator converts any
`anyhow::Error` into `ApiError::Internal` (the `#[from]` impl). -/
def api_queue_move_up (db : Db) (id : String) : Except ApiError Db :=
  match move_up db id with
  | .ok db1 => .ok db1
  | .error e => .error (.internal e)

/-- `fn api_queue_move_down` in src/web.rs. -/
def api_queue_move_down (db : Db) (id : String) : Except ApiError Db :=
  match move_down db id with
  | .ok db1 => .ok db1
  | .error e => .error (.internal e)

/-- `fn get_valid_access_token` in src/web.rs.  `refreshResult` is the result
of `refresh_access_token` (`none` = failure, surfaced as `ApiError::Internal`
by the `?` conversion from `anyhow::Error`). -/
def get_valid_access_token (db : Db) (now : Int) (refreshResult : Option OAuthToken) :
    Except ApiError (Db × String) :=
  match db.oauth_token with
  | none => .error (.unauthorized "not authenticated")
  | some t =>
    if t.expires_at ≤ now + 60 then
      match refreshResult with
      | some new_t => .ok (upsert_oauth_token db new_t, new_t.access_token)
      | none => .error (.internal "refresh failed")
    else .ok (db, t.access_token)

/-- The `authenticated` field computed by `fn api_status` in src/web.rs. -/
def api_status_authenticated (db : Db) (now : Int) : Bool := has_validish_token db now

/-- The token-expiry condition shared by `run_eventsub_loop` (src/twitch.rs
line 467) and `get_valid_access_token` (src/web.rs line 224):
`token.expires_at <= util::now_epoch() + 60`. -/
def tokenNeedsRefresh (t : OAuthToken) (now : Int) : Bool := decide (t.expires_at ≤ now + 60)

/-- One queue operation of the fairness queue engine, as invoked by the
admission pipeline and the presentation layer. -/
inductive Op where
  | enqueue (newId : String) (user : NewQueueUser) (now : Int)
  | delete (id : String) (mode : DeleteMode) (now : Int)
  | moveUp (id : String)
  | moveDown (id : String)
  deriving DecidableEq

/-- A failing operation (`NotFound`) rolls its transaction back: the caller
keeps the unchanged database. -/
def orElseDb (db : Db) : Except String Db → Db
  | .ok db1 => db1
  | .error _ => db

/-- The queue window is fixed per process (config); apply one operation. -/
def applyOp (window : Int) (db : Db) : Op → Db
  | .enqueue newId user now => (enqueue_user db window user now newId).1
  | .delete id mode now => orElseDb db (delete_item db id mode now)
  | .moveUp id => orElseDb db (move_up db id)
  | .moveDown id => orElseDb db (move_down db id)

/-- Apply a sequence of operations in order. -/
def applyOps (window : Int) (db : Db) (ops : List Op) : Db :=
  ops.foldl (applyOp window) db

/-- `Uuid::new_v4()` collision freedom for a run: every enqueue uses an entry
id not currently present in the table (true with probability 1 for v4 UUIDs;
a collision would anyway abort the insert on the primary key). -/
def freshOk (db : Db) : Op → Bool
  | .enqueue newId _ _ => !((db.queue_items.find? (fun it => it.id == newId)).isSome)
  | _ => true

/-- A run in which every enqueue uses a fresh entry id. -/
def FreshRun (window : Int) (db : Db) : List Op → Bool
  | [] => true
  | op :: rest => freshOk db op && FreshRun window (applyOp window db op) rest

/-- The list [0, 1, ..., n-1] as integers: the set of positions a dense queue
of n entries must occupy. -/
def rangeInt (n : Nat) : List Int := (List.range n).map (fun k => (k : Int))

/-- The positions of the queue entries are a dense permutation of
[0, count): the multiset of position values is exactly 0, ..., count-1
(hence no duplicates and no gaps). -/
def densePerm (l : List QueueItem) : Prop :=
  (l.map (fun it => it.position)).Perm (rangeInt l.length)

/-- The queue invariant of spec section 3: positions are a dense permutation
of [0, count), at most one entry per participant id, and entry ids are
unique. -/
def Wf (db : Db) : Prop :=
  densePerm db.queue_items ∧
    (db.queue_items.map (fun it => it.user_id)).Nodup ∧
    (db.queue_items.map (fun it => it.id)).Nodup

instance (db : Db) : Decidable (Wf db) := by unfold Wf densePerm; infer_instance

/-- The user ids of the queue in position order (the order `list_queue`
returns and the presentation layer displays). -/
def queueOrderUserIds (db : Db) : List String :=
  (sortByPos db.queue_items).map (fun it => it.user_id)

/-- How many queue entries sit at a given position value. -/
def posCount (l : List QueueItem) (a : Int) : Nat :=
  l.countP (fun it => decide (it.position = a))

/-- Sample entry A of the worked example in spec section 8: participant "a",
0 recent completions, position 0. -/
def itemA : QueueItem := ⟨"A", "a", "a", "a", "", 0, 0⟩

/-- Sample entry B: participant "b", 2 recent completions, position 1. -/
def itemB : QueueItem := ⟨"B", "b", "b", "b", "", 0, 1⟩

/-- Sample entry C: participant "c", 1 recent completion, position 2. -/
def itemC : QueueItem := ⟨"C", "c", "c", "c", "", 0, 2⟩

/-- The queue state of the worked example: entries A, B, C in that order with
2 recorded completions for "b" and 1 for "c" inside the lookback window. -/
def dbABC : Db :=
  ⟨[itemA, itemB, itemC], [⟨"b", 10⟩, ⟨"b", 20⟩, ⟨"c", 30⟩], [], [], none⟩

/-- The new participant of the worked example: 0 recent completions. -/
def userD : NewQueueUser := ⟨"d", "d", "d", ""⟩

/-- A sample configuration with a configured target reward id. -/
def cfgTarget : AppConfig := ⟨"rw", 100, 1000⟩

/-- A sample redemption event for the configured reward. -/
def evUser : RedemptionEvent := ⟨"u", "u", "U", "rw", "t"⟩

/-- A sample Helix profile for the sample user. -/
def helixUser1 : HelixUser := ⟨"u", "u", "U", "img"⟩

/-- A sample frame environment. -/
def envSample : StepEnv := ⟨true, some helixUser1, "id1", 5⟩

/-- A sample in-memory session state. -/
def stateSample : LoopState := ⟨emptyDb, EVENTSUB_WS_URL, false, false⟩

/-- A sample stored token expiring at epoch 45. -/
def tok45 : OAuthToken := ⟨"at", "rt", 45⟩

theorem countP_congr_mem {α : Type} {l : List α} {p q : α → Bool}
    (h : ∀ a ∈ l, p a = q a) : l.countP p = l.countP q := by
  induction l with
  | nil => rfl
  | cons x xs ih =>
    have hx := h x (List.mem_cons_self x xs)
    have ih2 := ih (fun a ha => h a (List.mem_cons_of_mem x ha))
    simp [List.countP_cons, hx, ih2]

theorem perm_extract_mem {α β : Type} [BEq β] [LawfulBEq β] (f : α → β) {l : List α} {x : α}
    (hx : x ∈ l) (hn : (l.map f).Nodup) :
    l.Perm (x :: l.filter (fun a => !(f a == f x))) := by
  induction l with
  | nil => cases hx
  | cons y ys ih =>
    have hn2 : (ys.map f).Nodup := (List.nodup_cons.mp (by simpa using hn)).2
    have hny : f y ∉ ys.map f := (List.nodup_cons.mp (by simpa using hn)).1
    rcases List.mem_cons.mp hx with rfl | hxy
    · have hfilter : ys.filter (fun a => !(f a == f x)) = ys := by
        apply List.filter_eq_self.mpr
        intro a ha
        have : f a ≠ f x := by
          intro hfa
          exact hny (hfa ▸ List.mem_map_of_mem f ha)
        simpa using this
      simp [hfilter]
    · have hfyx : f y ≠ f x := by
        intro hfa
        exact hny (hfa ▸ List.mem_map_of_mem f hxy)
      have hkeep : (!(f y == f x)) = true := by simpa using hfyx
      have h1 : (y :: ys).Perm (y :: (x :: ys.filter (fun a => !(f a == f x)))) :=
        (ih hxy hn2).cons y
      have h2 : (y :: (x :: ys.filter (fun a => !(f a == f x)))).Perm
          (x :: (y :: ys.filter (fun a => !(f a == f x)))) := List.Perm.swap x y _
      have h3 : x :: (y :: ys.filter (fun a => !(f a == f x)))
          = x :: ((y :: ys).filter (fun a => !(f a == f x))) := by
        simp only [List.filter_cons, hkeep, if_true]
      exact h3 ▸ (h1.trans h2)

theorem find_by_key {α β : Type} [BEq β] [LawfulBEq β] (f : α → β) {l : List α} {x : α} {t : β}
    (hx : x ∈ l) (ht : f x = t) (hn : (l.map f).Nodup) :
    l.find? (fun a => f a == t) = some x := by
  induction l with
  | nil => cases hx
  | cons y ys ih =>
    have hn2 : (ys.map f).Nodup := (List.nodup_cons.mp (by simpa using hn)).2
    have hny : f y ∉ ys.map f := (List.nodup_cons.mp (by simpa using hn)).1
    rcases List.mem_cons.mp hx with rfl | hxy
    · exact List.find?_cons_of_pos ys (by simpa using ht)
    · have hfyt : f y ≠ t := by
        intro hfa
        exact hny (by rw [hfa, ← ht]; exact List.mem_map_of_mem f hxy)
      rw [List.find?_cons_of_neg ys (by simpa using hfyt)]
      exact ih hxy hn2

theorem count_rangeInt (n : Nat) (a : Int) :
    (rangeInt n).count a = if 0 ≤ a ∧ a < (n : Int) then 1 else 0 := by
  induction n with
  | zero =>
    have hno : ¬(0 ≤ a ∧ a < ((0 : Nat) : Int)) := by push_cast; omega
    rw [if_neg hno]
    rfl
  | succ m ih =>
    have hsplit : rangeInt (m + 1) = rangeInt m ++ [(m : Int)] := by
      simp [rangeInt, List.range_succ]
    rw [hsplit, List.count_append, ih, List.count_singleton]
    simp only [beq_iff_eq]
    push_cast
    split_ifs <;> omega

theorem beq_int_eq_decide (x y : Int) : (x == y) = decide (x = y) := by
  by_cases h : x = y <;> simp [h]

theorem count_map_pos (l : List QueueItem) (a : Int) :
    (l.map (fun it => it.position)).count a = posCount l a := by
  rw [List.count_eq_countP, List.countP_map]
  exact countP_congr_mem (fun it _ => beq_int_eq_decide it.position a)

theorem densePerm_iff (l : List QueueItem) :
    densePerm l ↔
      ∀ a : Int, posCount l a = if 0 ≤ a ∧ a < (l.length : Int) then 1 else 0 := by
  unfold densePerm
  rw [List.perm_iff_count]
  constructor
  · intro h a
    rw [← count_map_pos, h a, count_rangeInt]
  · intro h a
    rw [count_map_pos, h a, count_rangeInt]

theorem densePerm_pos_range {l : List QueueItem} (h : densePerm l) {x : QueueItem}
    (hx : x ∈ l) : 0 ≤ x.position ∧ x.position < (l.length : Int) := by
  have hc := (densePerm_iff l).mp h x.position
  by_contra hcon
  rw [if_neg hcon] at hc
  have hpos : 0 < posCount l x.position :=
    List.countP_pos_iff.mpr ⟨x, hx, by simp⟩
  omega

theorem densePerm_exists_at {l : List QueueItem} (h : densePerm l) {a : Int}
    (h0 : 0 ≤ a) (hn : a < (l.length : Int)) : ∃ x ∈ l, x.position = a := by
  have hc := (densePerm_iff l).mp h a
  rw [if_pos ⟨h0, hn⟩] at hc
  have hpos : 0 < posCount l a := by omega
  obtain ⟨x, hx, hpx⟩ := List.countP_pos_iff.mp hpos
  exact ⟨x, hx, by simpa using hpx⟩

theorem scanInsertPos_le_length (parts : List Participation) (ws : Int) (my : Nat)
    (l : List QueueItem) : scanInsertPos parts ws my l ≤ l.length := by
  induction l with
  | nil => simp [scanInsertPos]
  | cons x xs ih =>
    unfold scanInsertPos
    split
    · simp
    · simpa using Nat.succ_le_succ ih

theorem densePerm_shift_insert {items : List QueueItem} (hd : densePerm items)
    {ip : Nat} (hip : ip ≤ items.length) {newItem : QueueItem}
    (hpos : newItem.position = (ip : Int)) :
    densePerm (shiftFrom (ip : Int) items ++ [newItem]) := by
  have hc : ∀ b : Int, items.countP (fun it => decide (it.position = b))
      = if 0 ≤ b ∧ b < (items.length : Int) then 1 else 0 := by
    intro b
    exact (densePerm_iff items).mp hd b
  rw [densePerm_iff]
  intro a
  simp only [posCount, shiftFrom]
  rw [List.countP_append, List.countP_map]
  simp only [List.length_append, List.length_map, List.length_singleton]
  have hone : List.countP (fun it => decide (it.position = a)) [newItem]
      = if (ip : Int) = a then 1 else 0 := by
    simp only [List.countP_cons, List.countP_nil, hpos]
    by_cases h : (ip : Int) = a <;> simp [h]
  rw [hone]
  rcases lt_trichotomy a (ip : Int) with hlt | heq | hgt
  · have hpt : ∀ it ∈ items,
        ((fun it => decide (it.position = a)) ∘ fun it =>
          if (ip : Int) ≤ it.position then { it with position := it.position + 1 } else it) it
        = decide (it.position = a) := by
      intro it _
      simp only [Function.comp_apply]
      by_cases hcase : (ip : Int) ≤ it.position
      · simp only [if_pos hcase]
        exact decide_eq_decide.mpr (by constructor <;> intro <;> omega)
      · simp only [if_neg hcase]
    rw [countP_congr_mem hpt, hc a, if_neg (by omega : ¬((ip : Int) = a))]
    push_cast
    split_ifs <;> omega
  · have hpt : ∀ it ∈ items,
        ((fun it => decide (it.position = a)) ∘ fun it =>
          if (ip : Int) ≤ it.position then { it with position := it.position + 1 } else it) it
        = false := by
      intro it _
      simp only [Function.comp_apply]
      by_cases hcase : (ip : Int) ≤ it.position
      · simp only [if_pos hcase]
        exact decide_eq_false (by omega)
      · simp only [if_neg hcase]
        exact decide_eq_false (by omega)
    rw [countP_congr_mem hpt]
    simp only [List.countP_false, Function.const_apply]
    rw [if_pos heq.symm]
    push_cast
    split_ifs <;> omega
  · have hpt : ∀ it ∈ items,
        ((fun it => decide (it.position = a)) ∘ fun it =>
          if (ip : Int) ≤ it.position then { it with position := it.position + 1 } else it) it
        = decide (it.position = a - 1) := by
      intro it _
      simp only [Function.comp_apply]
      by_cases hcase : (ip : Int) ≤ it.position
      · simp only [if_pos hcase]
        exact decide_eq_decide.mpr (by constructor <;> intro <;> omega)
      · simp only [if_neg hcase]
        exact decide_eq_decide.mpr (by constructor <;> intro <;> omega)
    rw [countP_congr_mem hpt, hc (a - 1), if_neg (by omega : ¬((ip : Int) = a))]
    push_cast
    split_ifs <;> omega

theorem nodup_map_update_append {items : List QueueItem} (f : QueueItem → String)
    (g : QueueItem → QueueItem) (hg : ∀ it, f (g it) = f it)
    (hn : (items.map f).Nodup) {newItem : QueueItem}
    (hfresh : ∀ x ∈ items, f x ≠ f newItem) :
    ((items.map g ++ [newItem]).map f).Nodup := by
  rw [List.map_append, List.map_map]
  have hmm : items.map (f ∘ g) = items.map f := List.map_congr_left (fun it _ => hg it)
  rw [hmm, List.nodup_append]
  refine ⟨hn, List.nodup_singleton _, ?_⟩
  intro b hb hb2
  obtain ⟨x, hx, rfl⟩ := List.mem_map.mp hb
  have hfx : f x = f newItem := by simpa using hb2
  exact hfresh x hx hfx

theorem enqueueInsertPos_le (db : Db) (ws : Int) (uid : String) :
    enqueueInsertPos db ws uid ≤ db.queue_items.length := by
  unfold enqueueInsertPos
  have h1 := scanInsertPos_le_length db.participations ws
    (count_participations db.participations uid ws) (sortByPos db.queue_items)
  have h2 : (sortByPos db.queue_items).length = db.queue_items.length :=
    (List.perm_insertionSort posLe db.queue_items).length_eq
  omega

theorem wf_enqueue {db : Db} (w : Int) (u : NewQueueUser) (now : Int) {newId : String}
    (hwf : Wf db) (hfresh : ∀ x ∈ db.queue_items, x.id ≠ newId) :
    Wf (enqueue_user db w u now newId).1 := by
  unfold enqueue_user
  by_cases hq : (db.queue_items.find? (fun it => it.user_id == u.user_id)).isSome
  · rw [if_pos hq]
    exact hwf
  · rw [if_neg hq]
    have hnone : db.queue_items.find? (fun it => it.user_id == u.user_id) = none :=
      Option.not_isSome_iff_eq_none.mp hq
    have husr : ∀ x ∈ db.queue_items, x.user_id ≠ u.user_id := by
      intro x hx
      have := List.find?_eq_none.mp hnone x hx
      simpa using this
    refine ⟨?_, ?_, ?_⟩
    · exact densePerm_shift_insert hwf.1 (enqueueInsertPos_le db (now - w) u.user_id) rfl
    · exact nodup_map_update_append (fun it => it.user_id) _
        (fun it => by dsimp only; split <;> rfl) hwf.2.1 husr
    · exact nodup_map_update_append (fun it => it.id) _
        (fun it => by dsimp only; split <;> rfl) hwf.2.2 hfresh

theorem densePerm_close_gap {items : List QueueItem} (hd : densePerm items)
    (hi : (items.map (fun it => it.id)).Nodup) {item : QueueItem} (hmem : item ∈ items) :
    densePerm (closeGapFrom item.position
      (items.filter (fun it => !(it.id == item.id)))) := by
  have hperm := perm_extract_mem (fun it => it.id) hmem hi
  have hc : ∀ b : Int, items.countP (fun it => decide (it.position = b))
      = if 0 ≤ b ∧ b < (items.length : Int) then 1 else 0 :=
    fun b => (densePerm_iff items).mp hd b
  have hrange := densePerm_pos_range hd hmem
  have hlen : items.length = (items.filter (fun it => !(it.id == item.id))).length + 1 := by
    have := hperm.length_eq
    simpa using this
  have hcl1 : ∀ b : Int,
      (if 0 ≤ b ∧ b < (items.length : Int) then 1 else 0)
      = (items.filter (fun it => !(it.id == item.id))).countP
          (fun it => decide (it.position = b))
        + (if decide (item.position = b) = true then 1 else 0) := by
    intro b
    rw [← hc b, hperm.countP_eq (fun it => decide (it.position = b)), List.countP_cons]
  have hnop : ∀ it ∈ items.filter (fun it => !(it.id == item.id)),
      it.position ≠ item.position := by
    intro it hit
    have h3 := hcl1 item.position
    have hone : (if 0 ≤ item.position ∧ item.position < (items.length : Int) then 1 else 0) = 1 :=
      if_pos hrange
    rw [hone] at h3
    have h4 : (if decide (item.position = item.position) = true then 1 else 0) = 1 := by simp
    rw [h4] at h3
    have h5 : (items.filter (fun it => !(it.id == item.id))).countP
        (fun it => decide (it.position = item.position)) = 0 := by omega
    have := List.countP_eq_zero.mp h5 it hit
    simpa using this
  rw [densePerm_iff]
  intro a
  simp only [posCount, closeGapFrom]
  rw [List.countP_map]
  simp only [List.length_map]
  rcases lt_or_le a item.position with hlt | hge
  · have hpt : ∀ it ∈ items.filter (fun it => !(it.id == item.id)),
        ((fun it => decide (it.position = a)) ∘ fun it =>
          if item.position < it.position then { it with position := it.position - 1 } else it) it
        = decide (it.position = a) := by
      intro it _
      simp only [Function.comp_apply]
      by_cases hcase : item.position < it.position
      · simp only [if_pos hcase]
        exact decide_eq_decide.mpr (by constructor <;> intro <;> omega)
      · simp only [if_neg hcase]
    rw [countP_congr_mem hpt]
    have h3 := hcl1 a
    simp only [decide_eq_true_eq] at h3
    have hap : ¬(item.position = a) := by omega
    rw [if_neg hap] at h3
    split_ifs at h3 ⊢ <;> omega
  · have hpt : ∀ it ∈ items.filter (fun it => !(it.id == item.id)),
        ((fun it => decide (it.position = a)) ∘ fun it =>
          if item.position < it.position then { it with position := it.position - 1 } else it) it
        = decide (it.position = a + 1) := by
      intro it hit
      have hne := hnop it hit
      simp only [Function.comp_apply]
      by_cases hcase : item.position < it.position
      · simp only [if_pos hcase]
        exact decide_eq_decide.mpr (by constructor <;> intro <;> omega)
      · simp only [if_neg hcase]
        exact decide_eq_decide.mpr (by constructor <;> intro <;> omega)
    rw [countP_congr_mem hpt]
    have h3 := hcl1 (a + 1)
    simp only [decide_eq_true_eq] at h3
    have hap : ¬(item.position = a + 1) := by omega
    rw [if_neg hap] at h3
    split_ifs at h3 ⊢ <;> omega

theorem nodup_map_update {items : List QueueItem} (f : QueueItem → String)
    (g : QueueItem → QueueItem) (hg : ∀ it, f (g it) = f it)
    (hn : (items.map f).Nodup) : ((items.map g).map f).Nodup := by
  rw [List.map_map,
    show items.map (f ∘ g) = items.map f from List.map_congr_left (fun it _ => hg it)]
  exact hn

theorem nodup_map_filter {items : List QueueItem} (f : QueueItem → String)
    (q : QueueItem → Bool) (hn : (items.map f).Nodup) :
    ((items.filter q).map f).Nodup :=
  List.Nodup.sublist ((List.filter_sublist items).map f) hn

theorem wf_delete {db : Db} (id : String) (mode : DeleteMode) (now : Int) (hwf : Wf db) :
    Wf (orElseDb db (delete_item db id mode now)) := by
  unfold delete_item
  cases hfind : db.queue_items.find? (fun it => it.id == id) with
  | none => exact hwf
  | some item =>
    have hmem := List.mem_of_find?_eq_some hfind
    have hid : item.id = id := by
      have := List.find?_some hfind
      simpa using this
    refine ⟨?_, ?_, ?_⟩
    · have h := densePerm_close_gap hwf.1 hwf.2.2 hmem
      rw [hid] at h
      exact h
    · exact nodup_map_update (fun it => it.user_id) _
        (fun it => by dsimp only; split <;> rfl)
        (nodup_map_filter (fun it => it.user_id) _ hwf.2.1)
    · exact nodup_map_update (fun it => it.id) _
        (fun it => by dsimp only; split <;> rfl)
        (nodup_map_filter (fun it => it.id) _ hwf.2.2)

theorem wf_move {db : Db} (id : String) {delta : Int} (hne0 : delta ≠ 0) (hwf : Wf db) :
    Wf (orElseDb db (move_by db id delta)) := by
  unfold move_by
  cases hfind : db.queue_items.find? (fun it => it.id == id) with
  | none => exact hwf
  | some item =>
    have hmemI := List.mem_of_find?_eq_some hfind
    dsimp only
    by_cases hneg : item.position + delta < 0
    · rw [if_pos hneg]
      exact hwf
    · rw [if_neg hneg]
      cases hswap : db.queue_items.find? (fun it => it.position == item.position + delta) with
      | none => exact hwf
      | some swap =>
        have hmemS := List.mem_of_find?_eq_some hswap
        have hswapPos : swap.position = item.position + delta := by
          have := List.find?_some hswap
          simpa using this
        have hItemNeSwap : item ≠ swap := by
          intro hcon
          rw [← hcon] at hswapPos
          omega
        have hIdNe : item.id ≠ swap.id := by
          intro hcon
          exact hItemNeSwap (List.inj_on_of_nodup_map hwf.2.2 hmemI hmemS hcon)
        have hIdNeB : (item.id == swap.id) = false := by simpa using hIdNe
        have hIdNeB2 : (swap.id == item.id) = false := by simpa using (Ne.symm hIdNe)
        have hperm1 := perm_extract_mem (fun it => it.id) hmemI hwf.2.2
        have hn1 : ((db.queue_items.filter
            (fun a => !(a.id == item.id))).map (fun it => it.id)).Nodup :=
          nodup_map_filter (fun it => it.id) _ hwf.2.2
        have hmemS1 : swap ∈ db.queue_items.filter (fun a => !(a.id == item.id)) := by
          rw [List.mem_filter]
          exact ⟨hmemS, by simpa using (Ne.symm hIdNe)⟩
        have hperm2 := perm_extract_mem (fun it => it.id) hmemS1 hn1
        have chain : db.queue_items.Perm (item :: swap ::
            ((db.queue_items.filter (fun a => !(a.id == item.id))).filter
              (fun a => !(a.id == swap.id)))) :=
          hperm1.trans (hperm2.cons item)
        have hl2 : ∀ it ∈ (db.queue_items.filter (fun a => !(a.id == item.id))).filter
            (fun a => !(a.id == swap.id)),
            (it.id == item.id) = false ∧ (it.id == swap.id) = false := by
          intro it hit
          have h1 := List.mem_filter.mp hit
          have h2 := List.mem_filter.mp h1.1
          exact ⟨by simpa using h2.2, by simpa using h1.2⟩
        refine ⟨?_, ?_, ?_⟩
        · dsimp only [orElseDb]
          rw [densePerm_iff]
          intro a
          simp only [posCount]
          rw [List.map_map, List.countP_map]
          simp only [List.length_map]
          rw [List.Perm.countP_eq _ chain]
          have horig := List.Perm.countP_eq (fun it => decide (it.position = a)) chain
          have hc := (densePerm_iff db.queue_items).mp hwf.1 a
          simp only [posCount] at hc
          rw [horig] at hc
          simp only [List.countP_cons, Function.comp_apply, beq_self_eq_true, if_true,
            hIdNeB, hIdNeB2, if_false] at hc ⊢
          clear horig
          have hl2c : List.countP ((fun it => decide (it.position = a)) ∘
              ((fun it => if it.id == swap.id then { it with position := item.position } else it) ∘
               (fun it => if it.id == item.id then { it with position := item.position + delta } else it)))
              ((db.queue_items.filter (fun a => !(a.id == item.id))).filter
                (fun a => !(a.id == swap.id)))
              = List.countP (fun it => decide (it.position = a))
              ((db.queue_items.filter (fun a => !(a.id == item.id))).filter
                (fun a => !(a.id == swap.id))) := by
            apply countP_congr_mem
            intro it hit
            obtain ⟨hf1, hf2⟩ := hl2 it hit
            have hp1 : it.id ≠ item.id := by simpa using hf1
            have hp2 : it.id ≠ swap.id := by simpa using hf2
            simp [hp1, hp2]
          rw [hl2c]
          simp at hc ⊢
          split_ifs at hc ⊢ <;> omega
        · exact nodup_map_update (fun it => it.user_id) _
            (fun it => by dsimp only; split <;> rfl)
            (nodup_map_update (fun it => it.user_id) _
              (fun it => by dsimp only; split <;> rfl) hwf.2.1)
        · exact nodup_map_update (fun it => it.id) _
            (fun it => by dsimp only; split <;> rfl)
            (nodup_map_update (fun it => it.id) _
              (fun it => by dsimp only; split <;> rfl) hwf.2.2)

theorem wf_applyOp {db : Db} (window : Int) {op : Op} (hwf : Wf db)
    (hf : freshOk db op = true) : Wf (applyOp window db op) := by
  cases op with
  | enqueue newId user now =>
    have hfresh : ∀ x ∈ db.queue_items, x.id ≠ newId := by
      intro x hx
      have hf2 : (!(db.queue_items.find? (fun it => it.id == newId)).isSome) = true := hf
      have hnone : db.queue_items.find? (fun it => it.id == newId) = none := by
        rcases h : db.queue_items.find? (fun it => it.id == newId) with _ | v
        · exact h
        · rw [h] at hf2
          simp at hf2
      have := List.find?_eq_none.mp hnone x hx
      simpa using this
    exact wf_enqueue window user now hwf hfresh
  | delete id mode now => exact wf_delete id mode now hwf
  | moveUp id => exact wf_move id (by omega) hwf
  | moveDown id => exact wf_move id (by omega) hwf

theorem wf_emptyDb : Wf emptyDb := by
  refine ⟨?_, ?_, ?_⟩ <;> simp [emptyDb, densePerm, rangeInt]

theorem freshRun_of_append {window : Int} {db : Db} {pre suf : List Op}
    (h : FreshRun window db (pre ++ suf) = true) : FreshRun window db pre = true := by
  induction pre generalizing db with
  | nil => rfl
  | cons op rest ih =>
    rw [List.cons_append] at h
    unfold FreshRun at h ⊢
    rcases (Bool.and_eq_true _ _).mp h with ⟨h1, h2⟩
    exact (Bool.and_eq_true _ _).mpr ⟨h1, ih h2⟩

theorem wf_applyOps {window : Int} {db : Db} {ops : List Op} (hwf : Wf db)
    (h : FreshRun window db ops = true) : Wf (applyOps window db ops) := by
  induction ops generalizing db with
  | nil => exact hwf
  | cons op rest ih =>
    unfold FreshRun at h
    rcases (Bool.and_eq_true _ _).mp h with ⟨h1, h2⟩
    unfold applyOps
    rw [List.foldl_cons]
    exact ih (wf_applyOp window hwf h1) h2

/-- Claim C1: For every sequence of enqueue, delete, moveUp and moveDown operations
starting from the fresh database (with each enqueue using a fresh entry id,
as v4 UUIDs guarantee), after each completed operation the positions of the
queue entries form a dense permutation of [0, count) with no duplicates or
gaps, and at most one entry exists per participant id. -/
theorem c1_queue_invariant (window : Int) (ops pre suf : List Op)
    (hsplit : ops = pre ++ suf) (hfresh : FreshRun window emptyDb ops = true) :
    Wf (applyOps window emptyDb pre) := by
  subst hsplit
  exact wf_applyOps wf_emptyDb (freshRun_of_append hfresh)

theorem c1_queue_invariant_witness :
    FreshRun 100 emptyDb
      [Op.enqueue ("A") ⟨"a", "a", "a", ""⟩ 0, Op.enqueue ("B") ⟨"b", "b", "b", ""⟩ 1,
        Op.delete ("A") DeleteMode.completed 2, Op.moveUp ("B")] = true ∧
    Wf (applyOps 100 emptyDb
      [Op.enqueue ("A") ⟨"a", "a", "a", ""⟩ 0, Op.enqueue ("B") ⟨"b", "b", "b", ""⟩ 1,
        Op.delete ("A") DeleteMode.completed 2]) :=
  ⟨by decide,
    c1_queue_invariant 100
      [Op.enqueue ("A") ⟨"a", "a", "a", ""⟩ 0, Op.enqueue ("B") ⟨"b", "b", "b", ""⟩ 1,
        Op.delete ("A") DeleteMode.completed 2, Op.moveUp ("B")]
      [Op.enqueue ("A") ⟨"a", "a", "a", ""⟩ 0, Op.enqueue ("B") ⟨"b", "b", "b", ""⟩ 1,
        Op.delete ("A") DeleteMode.completed 2]
      [Op.moveUp ("B")] rfl (by decide)⟩

theorem swap_members {items : List QueueItem} (hi : (items.map (fun it => it.id)).Nodup)
    {item swapIt : QueueItem} (np : Int) (hmem : item ∈ items) (hmemS : swapIt ∈ items)
    (hne : item ≠ swapIt) {q2 : List QueueItem}
    (hq2 : q2 = (items.map (fun it =>
        if it.id == item.id then { it with position := np } else it)).map (fun it =>
        if it.id == swapIt.id then { it with position := item.position } else it)) :
    { item with position := np } ∈ q2 ∧
    { swapIt with position := item.position } ∈ q2 ∧
    q2.length = items.length ∧
    (∀ x ∈ items, x ≠ item → x ≠ swapIt → x ∈ q2) := by
  subst hq2
  have hIdNe : item.id ≠ swapIt.id := fun hcon =>
    hne (List.inj_on_of_nodup_map hi hmem hmemS hcon)
  refine ⟨?_, ?_, by simp, ?_⟩
  · apply List.mem_map.mpr
    refine ⟨{ item with position := np }, ?_, ?_⟩
    · exact List.mem_map.mpr ⟨item, hmem, by simp⟩
    · simp [hIdNe]
  · apply List.mem_map.mpr
    refine ⟨swapIt, ?_, ?_⟩
    · exact List.mem_map.mpr ⟨swapIt, hmemS, by simp [Ne.symm hIdNe]⟩
    · simp
  · intro x hx hxi hxs
    have hxid1 : x.id ≠ item.id := fun hcon =>
      hxi (List.inj_on_of_nodup_map hi hx hmem hcon)
    have hxid2 : x.id ≠ swapIt.id := fun hcon =>
      hxs (List.inj_on_of_nodup_map hi hx hmemS hcon)
    apply List.mem_map.mpr
    refine ⟨x, List.mem_map.mpr ⟨x, hx, by simp [hxid1]⟩, by simp [hxid2]⟩

theorem rangeInt_nodup (n : Nat) : (rangeInt n).Nodup := by
  rw [List.nodup_iff_count_le_one]
  intro a
  rw [count_rangeInt]
  split <;> omega

theorem pos_nodup {db : Db} (hwf : Wf db) :
    (db.queue_items.map (fun it => it.position)).Nodup := by
  have h := hwf.1
  unfold densePerm at h
  rw [List.Perm.nodup_iff h]
  exact rangeInt_nodup _

/-- Claim C3: Enqueueing a participant that already has a queue entry returns
AlreadyQueued and leaves the entire database (entries, positions,
participation records) unchanged. -/
theorem c3_enqueue_idempotent (db : Db) (w : Int) (u : NewQueueUser) (now : Int)
    (newId : String) {x : QueueItem} (hx : x ∈ db.queue_items)
    (hux : x.user_id = u.user_id) :
    enqueue_user db w u now newId = (db, EnqueueOutcome.alreadyQueued) := by
  unfold enqueue_user
  have hsome : (db.queue_items.find? (fun it => it.user_id == u.user_id)).isSome := by
    rw [List.find?_isSome]
    exact ⟨x, hx, by simpa using hux⟩
  rw [if_pos hsome]

theorem c3_witness :
    enqueue_user dbABC 1000 ⟨"a", "z", "z", ""⟩ 1000 ("Z")
      = (dbABC, EnqueueOutcome.alreadyQueued) :=
  c3_enqueue_idempotent dbABC 1000 ⟨"a", "z", "z", ""⟩ 1000 ("Z")
    (show itemA ∈ dbABC.queue_items by decide) rfl

/-- Claim C4: Deleting an existing entry removes exactly that entry and shifts every
entry after the deleted position up by one; mode Completed appends exactly one
ParticipationRecord for that participant at the current time while Canceled
appends none; and delete is the only queue operation that writes
ParticipationRecord (enqueue and move never touch the participations table). -/
theorem c4_delete_behavior {db : Db} (id : String) (mode : DeleteMode) (now : Int)
    (hwf : Wf db) {item : QueueItem} (hmem : item ∈ db.queue_items) (hid : item.id = id) :
    (∃ db1, delete_item db id mode now = .ok db1 ∧
      (∀ x ∈ db1.queue_items, x.id ≠ id) ∧
      db1.queue_items.length + 1 = db.queue_items.length ∧
      (∀ x ∈ db.queue_items, x.id ≠ id →
        (if item.position < x.position then { x with position := x.position - 1 } else x)
          ∈ db1.queue_items) ∧
      (mode = DeleteMode.completed →
        db1.participations = db.participations ++ [⟨item.user_id, now⟩]) ∧
      (mode = DeleteMode.canceled → db1.participations = db.participations)) ∧
    (∀ (db2 : Db) (w : Int) (u : NewQueueUser) (n2 : Int) (nid : String),
      (enqueue_user db2 w u n2 nid).1.participations = db2.participations) ∧
    (∀ (db2 : Db) (i2 : String) (d2 : Int),
      (orElseDb db2 (move_by db2 i2 d2)).participations = db2.participations) := by
  have hfind : db.queue_items.find? (fun it => it.id == id) = some item :=
    find_by_key (fun it => it.id) hmem hid hwf.2.2
  refine ⟨?_, ?_, ?_⟩
  · unfold delete_item
    rw [hfind]
    subst hid
    have hperm := perm_extract_mem (fun it => it.id) hmem hwf.2.2
    refine ⟨_, rfl, ?_, ?_, ?_, ?_, ?_⟩
    · intro x hx
      obtain ⟨y, hy, rfl⟩ := List.mem_map.mp hx
      have hy2 := List.mem_filter.mp hy
      have hyne : y.id ≠ item.id := by simpa using hy2.2
      intro hcon
      apply hyne
      rw [← hcon]
      split <;> rfl
    · have hlen := hperm.length_eq
      simp only [List.length_cons] at hlen
      simp only [closeGapFrom, List.length_map]
      omega
    · intro x hx hxid
      have hxf : x ∈ db.queue_items.filter (fun it => !(it.id == item.id)) :=
        List.mem_filter.mpr ⟨hx, by simpa using hxid⟩
      exact List.mem_map.mpr ⟨x, hxf, rfl⟩
    · intro hm
      subst hm
      rfl
    · intro hm
      subst hm
      rfl
  · intro db2 w u n2 nid
    unfold enqueue_user
    split <;> rfl
  · intro db2 i2 d2
    cases hf : db2.queue_items.find? (fun it => it.id == i2) with
    | none =>
      unfold move_by
      rw [hf]
      rfl
    | some it2 =>
      unfold move_by
      rw [hf]
      dsimp only
      by_cases hneg : it2.position + d2 < 0
      · rw [if_pos hneg]
        rfl
      · rw [if_neg hneg]
        cases hf2 : db2.queue_items.find? (fun it => it.position == it2.position + d2) with
        | none => rfl
        | some sw => rfl

theorem c4_witness :
    ∃ db1, delete_item dbABC ("B") DeleteMode.completed 99 = .ok db1 ∧
      db1.participations = dbABC.participations ++ [⟨"b", 99⟩] := by
  obtain ⟨⟨db1, hok, hno, hlen, hsh, hcomp, hcanc⟩, henq, hmove⟩ :=
    c4_delete_behavior ("B") DeleteMode.completed 99 (show Wf dbABC by decide)
      (show itemB ∈ dbABC.queue_items by decide) rfl
  exact ⟨db1, hok, hcomp rfl⟩

/-- Claim C7: moveUp on the entry at position 0 and moveDown on the entry at the last
position are no-ops that return success and change nothing; otherwise
moveUp/moveDown swap the entry position with its immediate
predecessor/successor inside one transaction. -/
theorem c7_move_noop_or_swap {db : Db} {item : QueueItem} (hwf : Wf db)
    (hmem : item ∈ db.queue_items) :
    (item.position = 0 → move_up db item.id = .ok db) ∧
    (item.position = (db.queue_items.length : Int) - 1 →
      move_down db item.id = .ok db) ∧
    (0 < item.position → ∃ pred, pred ∈ db.queue_items ∧
      pred.position = item.position - 1 ∧
      ∃ db1, move_up db item.id = .ok db1 ∧
        { item with position := item.position - 1 } ∈ db1.queue_items ∧
        { pred with position := item.position } ∈ db1.queue_items ∧
        db1.queue_items.length = db.queue_items.length ∧
        (∀ x ∈ db.queue_items, x ≠ item → x ≠ pred → x ∈ db1.queue_items)) ∧
    (item.position < (db.queue_items.length : Int) - 1 → ∃ succ, succ ∈ db.queue_items ∧
      succ.position = item.position + 1 ∧
      ∃ db1, move_down db item.id = .ok db1 ∧
        { item with position := item.position + 1 } ∈ db1.queue_items ∧
        { succ with position := item.position } ∈ db1.queue_items ∧
        db1.queue_items.length = db.queue_items.length ∧
        (∀ x ∈ db.queue_items, x ≠ item → x ≠ succ → x ∈ db1.queue_items)) := by
  have hfind : db.queue_items.find? (fun it => it.id == item.id) = some item :=
    find_by_key (fun it => it.id) hmem rfl hwf.2.2
  have hrange := densePerm_pos_range hwf.1 hmem
  refine ⟨?_, ?_, ?_, ?_⟩
  · intro h0
    unfold move_up move_by
    rw [hfind]
    dsimp only
    rw [if_pos (by omega)]
  · intro hlast
    unfold move_down move_by
    rw [hfind]
    dsimp only
    rw [if_neg (by omega)]
    have hnone : db.queue_items.find? (fun it => it.position == item.position + 1) = none := by
      rw [List.find?_eq_none]
      intro x hx
      have := densePerm_pos_range hwf.1 hx
      simp only [beq_iff_eq]
      omega
    rw [hnone]
  · intro hpos
    obtain ⟨sw, hswmem, hswpos⟩ :=
      densePerm_exists_at hwf.1 (show (0 : Int) ≤ item.position + -1 by omega)
        (show item.position + -1 < (db.queue_items.length : Int) by omega)
    have hne : item ≠ sw := by
      intro hcon
      rw [← hcon] at hswpos
      omega
    have hfindsw : db.queue_items.find? (fun it => it.position == item.position + -1)
        = some sw :=
      find_by_key (fun it => it.position) hswmem hswpos (pos_nodup hwf)
    obtain ⟨hm1, hm2, hm3, hm4⟩ := swap_members hwf.2.2 (item.position + -1) hmem hswmem
      hne rfl
    refine ⟨sw, hswmem, by omega, ?_⟩
    refine ⟨{ db with
              queue_items := (db.queue_items.map (fun it =>
                  if it.id == item.id then { it with position := item.position + -1 }
                  else it)).map (fun it =>
                  if it.id == sw.id then { it with position := item.position } else it) },
      ?_, hm1, hm2, hm3, hm4⟩
    unfold move_up move_by
    rw [hfind]
    dsimp only
    rw [if_neg (by omega), hfindsw]
  · intro hpos
    obtain ⟨sw, hswmem, hswpos⟩ :=
      densePerm_exists_at hwf.1 (show (0 : Int) ≤ item.position + 1 by omega)
        (show item.position + 1 < (db.queue_items.length : Int) by omega)
    have hne : item ≠ sw := by
      intro hcon
      rw [← hcon] at hswpos
      omega
    have hfindsw : db.queue_items.find? (fun it => it.position == item.position + 1)
        = some sw :=
      find_by_key (fun it => it.position) hswmem hswpos (pos_nodup hwf)
    obtain ⟨hm1, hm2, hm3, hm4⟩ := swap_members hwf.2.2 (item.position + 1) hmem hswmem
      hne rfl
    refine ⟨sw, hswmem, by omega, ?_⟩
    refine ⟨{ db with
              queue_items := (db.queue_items.map (fun it =>
                  if it.id == item.id then { it with position := item.position + 1 }
                  else it)).map (fun it =>
                  if it.id == sw.id then { it with position := item.position } else it) },
      ?_, hm1, hm2, hm3, hm4⟩
    unfold move_down move_by
    rw [hfind]
    dsimp only
    rw [if_neg (by omega), hfindsw]

theorem c7_witness :
    move_up dbABC ("A") = .ok dbABC ∧ move_down dbABC ("C") = .ok dbABC := by
  have hA := c7_move_noop_or_swap (show Wf dbABC by decide)
    (show itemA ∈ dbABC.queue_items by decide)
  have hC := c7_move_noop_or_swap (show Wf dbABC by decide)
    (show itemC ∈ dbABC.queue_items by decide)
  exact ⟨hA.1 rfl, hC.2.1 (by decide)⟩

theorem scanInsertPos_spec (parts : List Participation) (ws : Int) (my : Nat)
    (l : List QueueItem) :
    (∀ j : Nat, j < scanInsertPos parts ws my l → ∀ it, l[j]? = some it →
      count_participations parts it.user_id ws ≤ my) ∧
    (∀ it, l[scanInsertPos parts ws my l]? = some it →
      my < count_participations parts it.user_id ws) := by
  induction l with
  | nil =>
    constructor
    · intro j hj
      simp [scanInsertPos] at hj
    · intro it h
      simp at h
  | cons x xs ih =>
    unfold scanInsertPos
    by_cases hx : my < count_participations parts x.user_id ws
    · rw [if_pos hx]
      constructor
      · intro j hj
        omega
      · intro it h
        rw [List.getElem?_cons_zero] at h
        cases h
        exact hx
    · rw [if_neg hx]
      constructor
      · intro j hj it hit
        cases j with
        | zero =>
          rw [List.getElem?_cons_zero] at hit
          cases hit
          omega
        | succ k =>
          rw [List.getElem?_cons_succ] at hit
          exact ih.1 k (by omega) it hit
      · intro it h
        rw [List.getElem?_cons_succ] at h
        exact ih.2 it h

/-- Claim C2 (amended): enqueue of a not-yet-queued participant computes the
participant recent-participation count, scans the existing entries in
ascending position order, and inserts the new entry at the index of the first
entry whose own count is strictly greater (so on equal counts existing
entries keep precedence), shifting that entry and all later ones down by one,
or appends at the end when no entry has a strictly greater count.  In the
worked example with entries A (0 recent completions), B (2), C (1) in that
order, enqueueing a participant with 0 completions inserts it before B,
yielding order A, new, B, C — not A, new, C, B as the spec example states —
with B and C in unchanged relative order. -/
theorem c2_insertion_rule (db : Db) (w : Int) (u : NewQueueUser) (now : Int)
    (newId : String) (hq : is_user_queued db u.user_id = false) :
    (enqueue_user db w u now newId
      = ({ db with
            queue_items :=
              shiftFrom ((enqueueInsertPos db (now - w) u.user_id : Nat) : Int)
                  db.queue_items
                ++ [⟨newId, u.user_id, u.user_login, u.display_name, u.profile_image_url,
                      now, ((enqueueInsertPos db (now - w) u.user_id : Nat) : Int)⟩] },
          EnqueueOutcome.added newId
            ((enqueueInsertPos db (now - w) u.user_id : Nat) : Int)) ∧
      List.Sorted posLe (sortByPos db.queue_items) ∧
      (sortByPos db.queue_items).Perm db.queue_items ∧
      enqueueInsertPos db (now - w) u.user_id ≤ db.queue_items.length ∧
      (∀ j : Nat, j < enqueueInsertPos db (now - w) u.user_id →
        ∀ it, (sortByPos db.queue_items)[j]? = some it →
          count_participations db.participations it.user_id (now - w)
            ≤ count_participations db.participations u.user_id (now - w)) ∧
      (∀ it, (sortByPos db.queue_items)[enqueueInsertPos db (now - w) u.user_id]?
          = some it →
        count_participations db.participations u.user_id (now - w)
          < count_participations db.participations it.user_id (now - w))) ∧
    queueOrderUserIds (enqueue_user dbABC 1000 userD 1000 ("D")).1
      = ["a", "d", "b", "c"] := by
  have hq2 : (db.queue_items.find? (fun it => it.user_id == u.user_id)).isSome = false := hq
  refine ⟨⟨?_, ?_, ?_, ?_, ?_, ?_⟩, ?_⟩
  · unfold enqueue_user
    rw [if_neg (by simp [hq2])]
  · exact List.sorted_insertionSort posLe db.queue_items
  · exact List.perm_insertionSort posLe db.queue_items
  · exact enqueueInsertPos_le db (now - w) u.user_id
  · exact (scanInsertPos_spec db.participations (now - w)
      (count_participations db.participations u.user_id (now - w))
      (sortByPos db.queue_items)).1
  · exact (scanInsertPos_spec db.participations (now - w)
      (count_participations db.participations u.user_id (now - w))
      (sortByPos db.queue_items)).2
  · decide

theorem c2_counterexample :
    queueOrderUserIds (enqueue_user dbABC 1000 userD 1000 ("D")).1
        ≠ ["a", "d", "c", "b"] ∧
      queueOrderUserIds (enqueue_user dbABC 1000 userD 1000 ("D")).1
        = ["a", "d", "b", "c"] := by
  constructor
  · decide
  · decide

theorem c2_witness :
    queueOrderUserIds (enqueue_user dbABC 1000 userD 1000 ("D")).1
      = ["a", "d", "b", "c"] :=
  (c2_insertion_rule dbABC 1000 userD 1000 ("D") (by decide)).2

/-- Claim C8 (amended): when no entry has the given id, delete, moveUp and moveDown
each fail with the NotFound error and leave the database unchanged; the
presentation layer surfaces delete's failure as NotFound (HTTP 404 with the
message), but moveUp/moveDown failures are converted to Internal (HTTP 500
"internal error") by the generic anyhow conversion, so their NotFound nature
is not surfaced to the caller. -/
theorem c8_not_found (db : Db) (id : String) (mode : DeleteMode) (now : Int)
    (delta window : Int) (habs : ∀ x ∈ db.queue_items, x.id ≠ id) :
    delete_item db id mode now = .error queueItemNotFound ∧
    move_by db id delta = .error queueItemNotFound ∧
    applyOp window db (Op.delete id mode now) = db ∧
    applyOp window db (Op.moveUp id) = db ∧
    applyOp window db (Op.moveDown id) = db ∧
    api_queue_delete db id mode now = .error (ApiError.notFound queueItemNotFound) ∧
    api_queue_move_up db id = .error (ApiError.internal queueItemNotFound) ∧
    api_queue_move_down db id = .error (ApiError.internal queueItemNotFound) ∧
    apiErrorResponse (ApiError.notFound queueItemNotFound) = (404, queueItemNotFound) ∧
    apiErrorResponse (ApiError.internal queueItemNotFound)
      = (500, "internal error") := by
  have hnone : db.queue_items.find? (fun it => it.id == id) = none := by
    rw [List.find?_eq_none]
    intro x hx
    simpa using habs x hx
  have hdel : delete_item db id mode now = .error queueItemNotFound := by
    unfold delete_item
    rw [hnone]
  have hmove : ∀ d : Int, move_by db id d = .error queueItemNotFound := by
    intro d
    unfold move_by
    rw [hnone]
  have hcontains : containsNotFound queueItemNotFound = true := by decide
  refine ⟨hdel, hmove delta, ?_, ?_, ?_, ?_, ?_, ?_, rfl, rfl⟩
  · show orElseDb db (delete_item db id mode now) = db
    rw [hdel]
    rfl
  · show orElseDb db (move_by db id (-1)) = db
    rw [hmove (-1)]
    rfl
  · show orElseDb db (move_by db id 1) = db
    rw [hmove 1]
    rfl
  · unfold api_queue_delete
    rw [hdel]
    simp [hcontains]
  · unfold api_queue_move_up move_up
    rw [hmove (-1)]
  · unfold api_queue_move_down move_down
    rw [hmove 1]

theorem c8_counterexample :
    api_queue_move_up emptyDb ("x") = .error (ApiError.internal queueItemNotFound) ∧
    (∀ msg, api_queue_move_up emptyDb ("x") ≠ .error (ApiError.notFound msg)) ∧
    apiErrorResponse (ApiError.internal queueItemNotFound)
      = (500, "internal error") := by
  have h1 : api_queue_move_up emptyDb ("x")
      = Except.error (ApiError.internal queueItemNotFound) := rfl
  refine ⟨h1, ?_, rfl⟩
  intro msg hcon
  rw [h1] at hcon
  simp at hcon

theorem c8_witness :
    delete_item emptyDb ("x") DeleteMode.canceled 0 = .error queueItemNotFound ∧
    api_queue_delete emptyDb ("x") DeleteMode.canceled 0
      = .error (ApiError.notFound queueItemNotFound) := by
  have h := c8_not_found emptyDb ("x") DeleteMode.canceled 0 1 100 (by decide)
  exact ⟨h.1, h.2.2.2.2.2.1⟩

/-- Claim C9: Both the background session loop and the interactive request path
treat the stored token as expired exactly when its remaining lifetime is at
most 60 seconds; in that case, and when the refresh succeeds, the new token is
persisted and used for the upstream call, while a token with more than 60
seconds left is used as stored without mutation. -/
theorem c9_token_refresh (t : OAuthToken) (now : Int) (db : Db)
    (rr : Option OAuthToken) :
    (tokenNeedsRefresh t now = true ↔ t.expires_at - now ≤ 60) ∧
    (db.oauth_token = some t → tokenNeedsRefresh t now = false →
      eventsubTokenStep db now rr = (db, some t) ∧
      get_valid_access_token db now rr = .ok (db, t.access_token)) ∧
    (∀ nt, db.oauth_token = some t → tokenNeedsRefresh t now = true → rr = some nt →
      eventsubTokenStep db now rr = (upsert_oauth_token db nt, some nt) ∧
      (upsert_oauth_token db nt).oauth_token = some nt ∧
      get_valid_access_token db now rr
        = .ok (upsert_oauth_token db nt, nt.access_token)) := by
  refine ⟨?_, ?_, ?_⟩
  · unfold tokenNeedsRefresh
    simp only [decide_eq_true_eq]
    constructor <;> intro <;> omega
  · intro hdb hfresh
    have hlt : ¬(t.expires_at ≤ now + 60) := by
      unfold tokenNeedsRefresh at hfresh
      simpa using hfresh
    constructor
    · unfold eventsubTokenStep
      rw [hdb]
      dsimp only
      rw [if_neg hlt]
    · unfold get_valid_access_token
      rw [hdb]
      dsimp only
      rw [if_neg hlt]
  · intro nt hdb hexp hrr
    have hle : t.expires_at ≤ now + 60 := by
      unfold tokenNeedsRefresh at hexp
      simpa using hexp
    subst hrr
    refine ⟨?_, rfl, ?_⟩
    · unfold eventsubTokenStep
      rw [hdb]
      dsimp only
      rw [if_pos hle]
    · unfold get_valid_access_token
      rw [hdb]
      dsimp only
      rw [if_pos hle]

theorem c9_witness :
    eventsubTokenStep ⟨[], [], [], [], some tok45⟩ 0 (some ⟨"at2", "rt2", 1000⟩)
        = (upsert_oauth_token ⟨[], [], [], [], some tok45⟩ ⟨"at2", "rt2", 1000⟩,
            some ⟨"at2", "rt2", 1000⟩) ∧
      get_valid_access_token ⟨[], [], [], [], some tok45⟩ 0 (some ⟨"at2", "rt2", 1000⟩)
        = .ok (upsert_oauth_token ⟨[], [], [], [], some tok45⟩ ⟨"at2", "rt2", 1000⟩,
            "at2") := by
  have h := (c9_token_refresh tok45 0 ⟨[], [], [], [], some tok45⟩
    (some ⟨"at2", "rt2", 1000⟩)).2.2 ⟨"at2", "rt2", 1000⟩ rfl (by decide) rfl
  exact ⟨h.1, h.2.2⟩

/-- Claim C10: The status endpoint's authenticated flag is computed by
has_validish_token, which is true exactly when a token is stored and its
expiry is strictly beyond now + 30 seconds — a smaller margin than the
60-second margin of the call paths, so a token with, e.g., 45 seconds left is
reported authenticated while every call path would refresh it first. -/
theorem c10_status_margin (db : Db) (now : Int) :
    (api_status_authenticated db now = has_validish_token db now) ∧
    (has_validish_token db now = true ↔
      ∃ t, db.oauth_token = some t ∧ now + 30 < t.expires_at) ∧
    (has_validish_token ⟨[], [], [], [], some tok45⟩ 0 = true ∧
      tokenNeedsRefresh tok45 0 = true) := by
  refine ⟨rfl, ?_, by decide, by decide⟩
  unfold has_validish_token
  cases hdb : db.oauth_token with
  | none => simp
  | some t => simp

theorem c10_witness :
    api_status_authenticated ⟨[], [], [], [], some tok45⟩ 0
        = has_validish_token ⟨[], [], [], [], some tok45⟩ 0 ∧
      has_validish_token ⟨[], [], [], [], some tok45⟩ 0 = true ∧
      tokenNeedsRefresh tok45 0 = true :=
  ⟨(c10_status_margin ⟨[], [], [], [], some tok45⟩ 0).1,
    (c10_status_margin ⟨[], [], [], [], some tok45⟩ 0).2.2⟩

theorem upsert_cache_processed (db : Db) (p : CachedUserProfile) :
    (upsert_cached_user_profile db p).processed_messages = db.processed_messages := by
  unfold upsert_cached_user_profile
  split <;> rfl

theorem enqueue_processed (db : Db) (w : Int) (u : NewQueueUser) (now : Int)
    (nid : String) :
    (enqueue_user db w u now nid).1.processed_messages = db.processed_messages := by
  unfold enqueue_user
  split <;> rfl

theorem profile_processed (db : Db) (now ttl : Int) (uid : String)
    (helix : Option HelixUser) :
    ∀ db2 url, get_profile_image_url_cached db now ttl uid helix = some (db2, url) →
      db2.processed_messages = db.processed_messages := by
  intro db2 url h
  unfold get_profile_image_url_cached at h
  dsimp only at h
  split at h
  · injection h with h2
    injection h2 with h3 h4
    rw [← h3]
  · split at h
    · injection h with h2
      injection h2 with h3 h4
      rw [← h3]
      exact upsert_cache_processed db _
    · split at h
      · injection h with h2
        injection h2 with h3 h4
        rw [← h3]
      · cases h

theorem is_processed_congr {db db2 : Db}
    (h : db2.processed_messages = db.processed_messages) (mid : String) :
    is_processed_message db2 mid = is_processed_message db mid := by
  unfold is_processed_message
  rw [h]

theorem mark_processed_is (db : Db) (mid : String) (ra : Int) :
    is_processed_message (mark_processed_message db mid ra) mid = true := by
  unfold mark_processed_message is_processed_message
  by_cases h : (db.processed_messages.find? (fun r => r.1 == mid)).isSome
  · rw [if_pos h]
    exact h
  · rw [if_neg h]
    dsimp only
    rw [List.find?_isSome]
    exact ⟨(mid, ra), by simp, by simp⟩

theorem handle_notification_dup (cfg : AppConfig) (db : Db) (now : Int) (mid : String)
    (payload : Option RedemptionEvent) (helix : Option HelixUser) (nid : String)
    (h : is_processed_message db mid = true) :
    handle_notification cfg db now mid (some SUB_TYPE_REDEMPTION_ADD) payload helix nid
      = (db, false) := by
  unfold handle_notification
  rw [if_neg (by simp), if_pos h]

theorem handle_notification_recorded (cfg : AppConfig) (db : Db) (now : Int)
    (mid : String) (payload : Option RedemptionEvent) (helix : Option HelixUser)
    (nid : String) (hnot : is_processed_message db mid = false) :
    is_processed_message
      (handle_notification cfg db now mid (some SUB_TYPE_REDEMPTION_ADD)
        payload helix nid).1 mid = true := by
  unfold handle_notification
  rw [if_neg (by simp), if_neg (by simp [hnot])]
  cases payload with
  | none => exact mark_processed_is db mid now
  | some ev =>
    dsimp only
    split
    · exact mark_processed_is db mid now
    · split
      · exact mark_processed_is db mid now
      · split
        · exact mark_processed_is db mid now
        · cases hprof : get_profile_image_url_cached (mark_processed_message db mid now)
              now cfg.user_cache_ttl_secs ev.user_id helix with
          | none => exact mark_processed_is db mid now
          | some pr =>
            obtain ⟨db2, url⟩ := pr
            have hp := profile_processed (mark_processed_message db mid now) now
              cfg.user_cache_ttl_secs ev.user_id helix db2 url hprof
            rcases henq : enqueue_user db2 cfg.participation_window_secs
                ⟨ev.user_id, ev.user_login, ev.user_name, url⟩ now nid with ⟨db3, out⟩
            have hp3 : db3.processed_messages = db2.processed_messages := by
              have := enqueue_processed db2 cfg.participation_window_secs
                ⟨ev.user_id, ev.user_login, ev.user_name, url⟩ now nid
              rw [henq] at this
              exact this
            dsimp only
            rw [henq]
            have hfinal : is_processed_message db3 mid = true := by
              rw [is_processed_congr hp3, is_processed_congr hp]
              exact mark_processed_is db mid now
            cases out with
            | added a b => exact hfinal
            | alreadyQueued => exact hfinal

/-- Claim C5 (amended): for notifications of the subscribed redemption type,
processing first checks the dedup ledger by message id and discards the frame
with no effect when the id is present; when absent, the id is recorded in the
ledger before any further processing (parse, filters, enqueue), so it is
recorded even when those later steps discard the event.  Notifications of any
other subscription type are discarded before the ledger check and are never
recorded.  Consequently, delivering the same upstream message id twice
results in at most one enqueue. -/
theorem c5_dedup (cfg : AppConfig) (db : Db) (now : Int) (mid : String)
    (payload : Option RedemptionEvent) (helix : Option HelixUser) (nid : String) :
    (is_processed_message db mid = true →
      handle_notification cfg db now mid (some SUB_TYPE_REDEMPTION_ADD)
        payload helix nid = (db, false)) ∧
    (is_processed_message db mid = false →
      is_processed_message
        (handle_notification cfg db now mid (some SUB_TYPE_REDEMPTION_ADD)
          payload helix nid).1 mid = true) ∧
    (∀ subty, subty ≠ some SUB_TYPE_REDEMPTION_ADD →
      handle_notification cfg db now mid subty payload helix nid = (db, false)) ∧
    (∀ subty now2 payload2 helix2 nid2,
      (handle_notification cfg db now mid subty payload helix nid).2 = true →
      (handle_notification cfg
          (handle_notification cfg db now mid subty payload helix nid).1
          now2 mid subty payload2 helix2 nid2).2 = false) := by
  refine ⟨?_, ?_, ?_, ?_⟩
  · intro h
    exact handle_notification_dup cfg db now mid payload helix nid h
  · intro h
    exact handle_notification_recorded cfg db now mid payload helix nid h
  · intro subty hsub
    unfold handle_notification
    rw [if_pos (by simpa using hsub)]
  · intro subty now2 payload2 helix2 nid2 henq
    by_cases hsub : subty = some SUB_TYPE_REDEMPTION_ADD
    · subst hsub
      by_cases hproc : is_processed_message db mid = true
      · rw [handle_notification_dup cfg db now mid payload helix nid hproc] at henq
        cases henq
      · have hnot : is_processed_message db mid = false := by
          cases h2 : is_processed_message db mid
          · rfl
          · exact absurd h2 hproc
        have hrec := handle_notification_recorded cfg db now mid payload helix nid hnot
        rw [handle_notification_dup cfg _ now2 mid payload2 helix2 nid2 hrec]
    · have hdrop : handle_notification cfg db now mid subty payload helix nid
          = (db, false) := by
        unfold handle_notification
        rw [if_pos (by simpa using hsub)]
      rw [hdrop] at henq
      cases henq

theorem c5_counterexample :
    (handle_notification cfgTarget emptyDb 5 ("m1") (some ("other.type")) none none
        ("id1")).1 = emptyDb ∧
    is_processed_message
        (handle_notification cfgTarget emptyDb 5 ("m1") (some ("other.type")) none none
          ("id1")).1 ("m1") = false := by
  constructor
  · rfl
  · rfl

theorem c5_witness :
    (handle_notification cfgTarget emptyDb 5 ("m1") (some SUB_TYPE_REDEMPTION_ADD)
        (some evUser) (some helixUser1) ("id1")).2 = true ∧
      (handle_notification cfgTarget
          (handle_notification cfgTarget emptyDb 5 ("m1") (some SUB_TYPE_REDEMPTION_ADD)
            (some evUser) (some helixUser1) ("id1")).1
          6 ("m1") (some SUB_TYPE_REDEMPTION_ADD) (some evUser) (some helixUser1)
          ("id2")).2 = false := by
  have hfst : (handle_notification cfgTarget emptyDb 5 ("m1")
      (some SUB_TYPE_REDEMPTION_ADD) (some evUser) (some helixUser1) ("id1")).2
      = true := by decide
  have h := (c5_dedup cfgTarget emptyDb 5 ("m1") (some evUser) (some helixUser1)
    ("id1")).2.2.2 (some SUB_TYPE_REDEMPTION_ADD) 6 (some evUser) (some helixUser1)
    ("id2") hfst
  exact ⟨hfst, h⟩

theorem postLoop_received (s : LoopState) :
    (postLoop s).received_reconnect = s.received_reconnect := by
  unfold postLoop
  split <;> rfl

theorem postLoop_reset {s : LoopState} (h : s.received_reconnect = false) :
    (postLoop s).need_subscribe = true ∧ (postLoop s).ws_url = EVENTSUB_WS_URL := by
  unfold postLoop
  rw [h]
  exact ⟨rfl, rfl⟩

theorem runConnGo_exit (cfg : AppConfig) (frames : List (WsEvent × StepEnv)) :
    ∀ s : LoopState, (runConnGo cfg s frames).1.received_reconnect = false →
      (runConnGo cfg s frames).1.need_subscribe = true ∧
      (runConnGo cfg s frames).1.ws_url = EVENTSUB_WS_URL := by
  induction frames with
  | nil =>
    intro s h
    unfold runConnGo at h ⊢
    have hr : s.received_reconnect = false := by
      rw [← postLoop_received s]
      exact h
    exact postLoop_reset hr
  | cons fe rest ih =>
    intro s h
    obtain ⟨e, env⟩ := fe
    unfold runConnGo at h ⊢
    rcases hstep : stepEvent cfg env s e with ⟨s1, acts, brk⟩
    rw [hstep] at h
    cases brk
    · dsimp only at h ⊢
      exact ih s1 h
    · dsimp only at h ⊢
      have hr : s1.received_reconnect = false := by
        rw [← postLoop_received s1]
        exact h
      exact postLoop_reset hr

/-- Claim C6: a session_reconnect frame with a reconnect url never triggers a new
subscription creation (need_subscribe is left untouched, so it stays false,
and the client reconnects to the endpoint given by the frame); a createSub
action is only ever emitted by a session_welcome frame while need_subscribe is
set; a read-loop exit without a prior session_reconnect sets need_subscribe to
true and resets the endpoint to the canonical default; and on the next
successful welcome exactly one subscription-creation attempt occurs, after
which need_subscribe is clear and further welcomes attempt none. -/
theorem c6_session_protocol (cfg : AppConfig) :
    (∀ env s url, stepEvent cfg env s (WsEvent.reconnect (some url))
      = ({ s with ws_url := url, received_reconnect := true }, [], true)) ∧
    (∀ env s e sid, Action.createSub sid ∈ (stepEvent cfg env s e).2.1 →
      (∃ sid2, e = WsEvent.welcome sid2) ∧ s.need_subscribe = true) ∧
    (∀ s frames, (runConn cfg s frames).1.received_reconnect = false →
      (runConn cfg s frames).1.need_subscribe = true ∧
      (runConn cfg s frames).1.ws_url = EVENTSUB_WS_URL) ∧
    (∀ env s sid, s.need_subscribe = true → env.subOk = true →
      stepEvent cfg env s (WsEvent.welcome sid)
        = ({ s with need_subscribe := false },
            [Action.createSub sid, Action.spawnCleanup], false)) ∧
    (∀ env s sid, s.need_subscribe = false →
      stepEvent cfg env s (WsEvent.welcome sid) = (s, [], false)) := by
  refine ⟨?_, ?_, ?_, ?_, ?_⟩
  · intro env s url
    rfl
  · intro env s e sid hmem
    cases e with
    | welcome sid2 =>
      cases hns : s.need_subscribe with
      | false =>
        exfalso
        unfold stepEvent at hmem
        rw [hns] at hmem
        simp at hmem
      | true => exact ⟨⟨sid2, rfl⟩, rfl⟩
    | keepalive =>
      exfalso
      unfold stepEvent at hmem
      simp at hmem
    | notification mid subty payload =>
      exfalso
      unfold stepEvent at hmem
      dsimp only at hmem
      split at hmem <;> simp at hmem
    | reconnect u =>
      exfalso
      unfold stepEvent at hmem
      cases u <;> simp at hmem
    | revocation =>
      exfalso
      unfold stepEvent at hmem
      simp at hmem
    | unknownFrame =>
      exfalso
      unfold stepEvent at hmem
      simp at hmem
    | ping =>
      exfalso
      unfold stepEvent at hmem
      simp at hmem
    | closeFrame =>
      exfalso
      unfold stepEvent at hmem
      simp at hmem
  · intro s frames h
    unfold runConn at h ⊢
    exact runConnGo_exit cfg frames _ h
  · intro env s sid hns hsub
    unfold stepEvent
    rw [hns, hsub]
    rfl
  · intro env s sid hns
    unfold stepEvent
    rw [hns]
    rfl

theorem c6_witness :
    stepEvent cfgTarget envSample stateSample (WsEvent.reconnect (some ("wss://x")))
        = ({ stateSample with ws_url := "wss://x", received_reconnect := true },
            [], true) ∧
      (runConn cfgTarget stateSample [(WsEvent.closeFrame, envSample)]).1.need_subscribe
        = true ∧
      (runConn cfgTarget stateSample
          [(WsEvent.closeFrame, envSample)]).1.ws_url = EVENTSUB_WS_URL := by
  have h := c6_session_protocol cfgTarget
  have h3 := h.2.2.1 stateSample [(WsEvent.closeFrame, envSample)] (by decide)
  exact ⟨h.1 envSample stateSample ("wss://x"), h3.1, h3.2⟩

end TwitchObsQueue
